import Mathlib

/-
  Verification of the ripple-binary-codec core against its natural-language
  specification.

  The development shallowly embeds the repository's `Issue` type
  (src/unnamed/part_000, issue.ts), the `XChainBridge` type and the binary
  facade (`serializeObject`, `signingData`, `multiSigningData`,
  `signingClaimData`) (src/unnamed/part_001, xchain-bridge.ts and binary.ts).

  Collaborator modules that the repository snapshot does not include
  (currency.ts, account-id.ts, st-object.ts, hash-prefixes.ts, amount.ts,
  uint-64.ts, hash-256.ts, issued-currency.ts, the ripple-address-codec
  dependency and serdes/binary-parser.ts) are modelled from the specification;
  each such definition carries a doc comment saying so.

  Bytes are `List Nat`; a well-formed byte is `< 256`. Fallible code returns
  `Except String`.
-/

set_option maxRecDepth 10000

namespace XrplCodec

/-- Byte strings: each entry models one byte of a Buffer. -/
abbrev Bytes := List Nat

/-- `Buffer.alloc n`: `n` zero bytes. -/
def zeros (n : Nat) : Bytes := List.replicate n 0

/-- All entries are genuine byte values. -/
def WfBytes (bs : Bytes) : Prop := ∀ b ∈ bs, b < 256

instance (bs : Bytes) : Decidable (WfBytes bs) := by
  unfold WfBytes; infer_instance

/- ### Hexadecimal strings

Modelled from the spec: "all hex I/O is uppercase on output, case-insensitive
on input" (§6). `hexOfBytes` is the output direction (`Buffer.toString('hex')`
upper-cased), `bytesOfHex` the input direction. -/

/-- Uppercase hexadecimal digit for a value `< 16`. -/
def hexDigitChar (n : Nat) : Char :=
  if n < 10 then Char.ofNat (48 + n) else Char.ofNat (55 + n)

/-- Uppercase hexadecimal rendering of a byte string, two digits per byte. -/
def hexOfBytes : Bytes → List Char
  | [] => []
  | b :: bs => hexDigitChar (b / 16 % 16) :: hexDigitChar (b % 16) :: hexOfBytes bs

/-- Value of one hexadecimal digit, case-insensitive. -/
def hexCharVal (c : Char) : Option Nat :=
  if 48 ≤ c.toNat ∧ c.toNat ≤ 57 then some (c.toNat - 48)
  else if 65 ≤ c.toNat ∧ c.toNat ≤ 70 then some (c.toNat - 55)
  else if 97 ≤ c.toNat ∧ c.toNat ≤ 102 then some (c.toNat - 87)
  else none

/-- Parse a hexadecimal character list into bytes; fails on odd length or a
non-hex character. -/
def bytesOfHex : List Char → Option Bytes
  | [] => some []
  | [_] => none
  | c1 :: c2 :: cs => do
      let h ← hexCharVal c1
      let l ← hexCharVal c2
      let rest ← bytesOfHex cs
      some ((h * 16 + l) :: rest)

theorem hexCharVal_hexDigitChar {d : Nat} (h : d < 16) :
    hexCharVal (hexDigitChar d) = some d := by
  interval_cases d <;> decide

theorem length_hexOfBytes (bs : Bytes) : (hexOfBytes bs).length = 2 * bs.length := by
  induction bs with
  | nil => rfl
  | cons b bs ih => simp [hexOfBytes, ih]; omega

/-- Parsing inverts printing on well-formed bytes. -/
theorem bytesOfHex_hexOfBytes (bs : Bytes) (h : WfBytes bs) :
    bytesOfHex (hexOfBytes bs) = some bs := by
  induction bs with
  | nil => rfl
  | cons b bs ih =>
      have hb : b < 256 := h b (List.mem_cons_self b bs)
      have hhi : b / 16 % 16 < 16 := Nat.mod_lt _ (by omega)
      have hlo : b % 16 < 16 := Nat.mod_lt _ (by omega)
      have hdiv : b / 16 % 16 = b / 16 := by
        have : b / 16 < 16 := by omega
        exact Nat.mod_eq_of_lt this
      have hrest : bytesOfHex (hexOfBytes bs) = some bs :=
        ih (fun x hx => h x (List.mem_cons_of_mem b hx))
      simp only [hexOfBytes, bytesOfHex, hexCharVal_hexDigitChar hhi,
        hexCharVal_hexDigitChar hlo, hrest, Option.bind_eq_bind,
        Option.some_bind]
      have : b / 16 % 16 * 16 + b % 16 = b := by
        rw [hdiv]; omega
      simp [this]

theorem bytesOfHex_length : ∀ (cs : List Char) (bs : Bytes),
    bytesOfHex cs = some bs → cs.length = 2 * bs.length
  | [], bs, h => by
      simp [bytesOfHex] at h
      subst h; rfl
  | [_], _, h => by
      simp [bytesOfHex] at h
  | c1 :: c2 :: cs, bs, h => by
      simp only [bytesOfHex, Option.bind_eq_bind] at h
      cases h1 : hexCharVal c1 with
      | none => rw [h1] at h; cases h
      | some v1 =>
          rw [h1] at h
          cases h2 : hexCharVal c2 with
          | none => rw [h2] at h; simp at h
          | some v2 =>
              rw [h2] at h
              cases h3 : bytesOfHex cs with
              | none => rw [h3] at h; simp at h
              | some rest =>
                  rw [h3] at h
                  simp at h
                  have := bytesOfHex_length cs rest h3
                  subst h
                  simp [List.length_cons, this]
                  omega

/- ### JSON values

The JSON shapes the claims need: strings, and objects as key/value lists
(JS objects have no duplicate keys; key order is the insertion order that
`Object.keys` observes). -/

/-- JSON values restricted to the shapes the embedded operations consume. -/
inductive JVal where
  | str : String → JVal
  | obj : List (String × JVal) → JVal

/-- JS property access `o[k]`: the first binding of `k`. -/
def jlookup (kvs : List (String × JVal)) (k : String) : Option JVal :=
  match kvs with
  | [] => none
  | (k₀, v) :: rest => if k₀ = k then some v else jlookup rest k

/-- Lexicographic comparison of character lists by code point, the order JS
`Array.prototype.sort()` uses on the ASCII key names involved here. -/
def charListLe : List Char → List Char → Bool
  | [], _ => true
  | _ :: _, [] => false
  | a :: as, b :: bs =>
    if a.toNat < b.toNat then true
    else if b.toNat < a.toNat then false
    else charListLe as bs

/-- String comparison used by `Object.keys(arg).sort()`. -/
def strLe (a b : String) : Bool := charListLe a.toList b.toList

/-- Insert a string into an already sorted list (stable insertion). -/
def insertSorted (s : String) : List String → List String
  | [] => [s]
  | t :: rest => if strLe s t then s :: t :: rest else t :: insertSorted s rest

/-- `Array.prototype.sort()` on a list of keys, as stable insertion sort. -/
def sortStrings : List String → List String
  | [] => []
  | s :: rest => insertSorted s (sortStrings rest)

theorem mem_insertSorted {a s : String} {l : List String} :
    a ∈ insertSorted s l ↔ a = s ∨ a ∈ l := by
  induction l with
  | nil => simp [insertSorted]
  | cons t rest ih =>
      by_cases h : strLe s t
      · simp [insertSorted, h]
      · simp [insertSorted, h, ih]
        tauto

theorem mem_sortStrings {a : String} {l : List String} :
    a ∈ sortStrings l ↔ a ∈ l := by
  induction l with
  | nil => simp [sortStrings]
  | cons s rest ih => simp [sortStrings, mem_insertSorted, ih]

/- ### Binary parser

Modelled from the spec (§4.5): serdes/binary-parser.ts is not under src/.
"Parser: immutable byte buffer + advancing cursor ... Any read past end
fails with UnexpectedEnd." -/

/-- Modelled from the spec: the `BinaryParser` cursor, reduced to the bytes
not yet consumed. -/
structure BinaryParser where
  bytes : Bytes
deriving DecidableEq

/-- Modelled from the spec: `read(n)` returns the next `n` bytes and advances;
reading past the end fails. -/
def BinaryParser.read (p : BinaryParser) (n : Nat) :
    Except String (Bytes × BinaryParser) :=
  if n ≤ p.bytes.length then .ok (p.bytes.take n, ⟨p.bytes.drop n⟩)
  else .error "end of byte stream reached"

/-- Modelled from the spec: `skip(n)` advances without looking at the bytes. -/
def BinaryParser.skip (p : BinaryParser) (n : Nat) :
    Except String BinaryParser :=
  if n ≤ p.bytes.length then .ok ⟨p.bytes.drop n⟩
  else .error "end of byte stream reached"

theorem BinaryParser.read_append (xs rest : Bytes) :
    BinaryParser.read ⟨xs ++ rest⟩ xs.length = .ok (xs, ⟨rest⟩) := by
  simp [BinaryParser.read]

theorem BinaryParser.read_append_of_length {n : Nat} (xs rest : Bytes)
    (h : xs.length = n) : BinaryParser.read ⟨xs ++ rest⟩ n = .ok (xs, ⟨rest⟩) := by
  subst h; exact BinaryParser.read_append xs rest

theorem BinaryParser.skip_cons (b : Nat) (rest : Bytes) :
    BinaryParser.skip ⟨b :: rest⟩ 1 = .ok ⟨rest⟩ := by
  simp [BinaryParser.skip]

/- ### Currency

Modelled from the spec (§4.3): currency.ts is not under src/. "Currency: 20
bytes. Three canonical shapes: (a) standard 3-letter ISO code → 12 zero bytes
+ 3 ASCII + 5 zero bytes; (b) 'XRP' → 20 zero bytes; (c) non-standard → raw
20 bytes hex. to_json returns the 3-letter code if it matches the standard
layout and bytes [0..11] and [15..19] are zero and the 3-letter chars are
valid; otherwise uppercase hex." -/

/-- Valid character of a standard 3-letter currency code (alphanumeric ASCII). -/
def isoCharByte (b : Nat) : Bool :=
  decide ((48 ≤ b ∧ b ≤ 57) ∨ (65 ≤ b ∧ b ≤ 90) ∨ (97 ≤ b ∧ b ≤ 122))

/-- Modelled from the spec: the standard-layout test used by `Currency.toJSON`:
zero bytes at offsets 0..11 and 15..19, valid code characters at 12..14. -/
def isStdCurrencyLayout (bs : Bytes) : Bool :=
  decide (bs.length = 20 ∧ bs.take 12 = zeros 12 ∧ bs.drop 15 = zeros 5 ∧
    ∀ b ∈ (bs.drop 12).take 3, b < 256 ∧ isoCharByte b = true)

/-- The 3-letter code held by a standard-layout currency. -/
def currencyIsoChars (bs : Bytes) : List Char := ((bs.drop 12).take 3).map Char.ofNat

/-- Modelled from the spec: `Currency.toJSON` — `"XRP"` for the all-zero
currency, the ISO code for the standard layout, uppercase hex otherwise. -/
def Currency.toJSON (bs : Bytes) : String :=
  if bs = zeros 20 then "XRP"
  else if isStdCurrencyLayout bs then String.mk (currencyIsoChars bs)
  else String.mk (hexOfBytes bs)

/-- Modelled from the spec: `Currency.from` on a JSON string — `"XRP"` gives
20 zero bytes, a valid 3-letter code gives the standard layout, a 40-digit
hex string gives the raw bytes, anything else fails. -/
def Currency.fromString (s : String) : Except String Bytes :=
  if s = "XRP" then .ok (zeros 20)
  else if s.toList.length = 3 ∧ s.toList.all (fun c => isoCharByte c.toNat) then
    .ok (zeros 12 ++ s.toList.map Char.toNat ++ zeros 5)
  else if h : s.toList.length = 40 then
    match bytesOfHex s.toList with
    | some bs => .ok bs
    | none => .error "Cannot construct Currency from value given"
  else .error "Cannot construct Currency from value given"

/-- `Currency.from` on a JSON value: only strings are accepted. -/
def Currency.fromJVal : JVal → Except String Bytes
  | .str s => Currency.fromString s
  | .obj _ => .error "Cannot construct Currency from value given"

theorem Currency.fromString_length {s : String} {bs : Bytes}
    (h : Currency.fromString s = .ok bs) : bs.length = 20 := by
  unfold Currency.fromString at h
  by_cases h1 : s = "XRP"
  · simp [h1] at h
    subst h; rfl
  · rw [if_neg h1] at h
    by_cases h2 : s.toList.length = 3 ∧ s.toList.all (fun c => isoCharByte c.toNat)
    · rw [if_pos h2] at h
      simp at h
      subst h
      simp [zeros]
      simpa using h2.1
    · rw [if_neg h2] at h
      by_cases h3 : s.toList.length = 40
      · rw [dif_pos h3] at h
        cases h4 : bytesOfHex s.toList with
        | none => rw [h4] at h; cases h
        | some v =>
            have hlen := bytesOfHex_length s.toList v h4
            rw [h4] at h
            cases h
            omega
      · rw [dif_neg h3] at h; cases h

theorem toNat_charOfNat {b : Nat} (h : b < 256) : (Char.ofNat b).toNat = b := by
  have hv : b.isValidChar := Or.inl (by omega)
  rw [Char.ofNat, dif_pos hv]
  rfl

/-- `Currency.from` inverts `Currency.toJSON` on every 20-byte currency except
the non-canonical standard layout that spells out "XRP" in ASCII (whose JSON
collides with the all-zero XRP currency). -/
theorem Currency.fromString_toJSON (c : Bytes) (hl : c.length = 20)
    (hb : WfBytes c) (hx : Currency.toJSON c = "XRP" → c = zeros 20) :
    Currency.fromString (Currency.toJSON c) = .ok c := by
  by_cases h0 : c = zeros 20
  · subst h0
    simp [Currency.toJSON, Currency.fromString]
  · rw [Currency.toJSON, if_neg h0]
    by_cases h1 : isStdCurrencyLayout c = true
    · rw [if_pos h1]
      have hstd := of_decide_eq_true h1
      obtain ⟨-, htake, hdrop, hchars⟩ := hstd
      have hne : String.mk (currencyIsoChars c) ≠ "XRP" := by
        intro hxrp
        apply h0
        apply hx
        rw [Currency.toJSON, if_neg h0, if_pos h1]
        exact hxrp
      rw [Currency.fromString, if_neg hne]
      have hlen3 : (currencyIsoChars c).length = 3 := by
        simp [currencyIsoChars]
        omega
      have htolist : (String.mk (currencyIsoChars c)).toList = currencyIsoChars c := rfl
      have hiso : (String.mk (currencyIsoChars c)).toList.length = 3 ∧
          (String.mk (currencyIsoChars c)).toList.all
            (fun ch => isoCharByte ch.toNat) = true := by
        constructor
        · rw [htolist]; exact hlen3
        · rw [htolist]
          rw [List.all_eq_true]
          intro ch hch
          rw [currencyIsoChars] at hch
          obtain ⟨b, hbmem, hbeq⟩ := List.mem_map.mp hch
          obtain ⟨hblt, hbiso⟩ := hchars b hbmem
          rw [← hbeq, toNat_charOfNat hblt]
          exact hbiso
      rw [if_pos hiso]
      congr 1
      rw [htolist]
      have hmap : (currencyIsoChars c).map Char.toNat = (c.drop 12).take 3 := by
        rw [currencyIsoChars, List.map_map]
        conv_rhs => rw [← List.map_id ((c.drop 12).take 3)]
        apply List.map_congr_left
        intro b hbmem
        exact toNat_charOfNat (hchars b hbmem).1
      rw [hmap]
      have hc : c = c.take 12 ++ ((c.drop 12).take 3 ++ (c.drop 12).drop 3) := by
        rw [List.take_append_drop, List.take_append_drop]
      rw [htake] at hc
      have hdd : (c.drop 12).drop 3 = c.drop 15 := by
        rw [List.drop_drop]
      rw [hdd, hdrop] at hc
      exact hc.symm
    · rw [if_neg h1]
      have hlenhex : (hexOfBytes c).length = 40 := by
        rw [length_hexOfBytes, hl]
      have htolist : (String.mk (hexOfBytes c)).toList = hexOfBytes c := rfl
      have hne : String.mk (hexOfBytes c) ≠ "XRP" := by
        intro hxrp
        have : (String.mk (hexOfBytes c)).toList = "XRP".toList := by rw [hxrp]
        rw [htolist] at this
        have : (hexOfBytes c).length = ("XRP".toList).length := by rw [this]
        simp [hlenhex] at this
      rw [Currency.fromString, if_neg hne]
      have hno3 : ¬((String.mk (hexOfBytes c)).toList.length = 3 ∧
          (String.mk (hexOfBytes c)).toList.all
            (fun ch => isoCharByte ch.toNat) = true) := by
        rw [htolist, hlenhex]
        simp
      rw [if_neg hno3]
      have h40 : (String.mk (hexOfBytes c)).toList.length = 40 := by
        rw [htolist]; exact hlenhex
      rw [dif_pos h40, htolist, bytesOfHex_hexOfBytes c hb]

/- ### AccountID and the external address codec

Modelled from the spec (§6): account-id.ts and the ripple-address-codec
dependency are not under src/. "Address codec dependency: base58-with-checksum
encode/decode for AccountIDs — provided as an external collaborator with
operations decode_account_id(string) → bytes[20] and
encode_account_id(bytes[20]) → string." The collaborator is a bijection
between valid addresses and 20-byte buffers; it is modelled here as the
injective encoding "r" followed by the uppercase hex of the 20 bytes. -/

/-- Modelled from the spec: `encodeAccountID` of the external address codec. -/
def encodeAccountID (bs : Bytes) : String := String.mk ('r' :: hexOfBytes bs)

/-- Modelled from the spec: `decodeAccountID` of the external address codec;
yields exactly 20 bytes or fails. -/
def decodeAccountID (s : String) : Except String Bytes :=
  match s.toList with
  | 'r' :: cs =>
      match bytesOfHex cs with
      | some bs => if bs.length = 20 then .ok bs else .error "invalid account identifier"
      | none => .error "invalid account identifier"
  | _ => .error "invalid account identifier"

/-- `AccountID.from` on a JSON value (an address string). -/
def AccountID.fromJVal : JVal → Except String Bytes
  | .str s => decodeAccountID s
  | .obj _ => .error "Cannot construct AccountID from value given"

theorem decodeAccountID_encodeAccountID (bs : Bytes) (hl : bs.length = 20)
    (hb : WfBytes bs) : decodeAccountID (encodeAccountID bs) = .ok bs := by
  have htolist : (String.mk ('r' :: hexOfBytes bs)).toList = 'r' :: hexOfBytes bs := rfl
  rw [encodeAccountID, decodeAccountID, htolist]
  simp only [bytesOfHex_hexOfBytes bs hb]
  rw [if_pos hl]

theorem decodeAccountID_length {s : String} {bs : Bytes}
    (h : decodeAccountID s = .ok bs) : bs.length = 20 := by
  rw [decodeAccountID] at h
  split at h
  · split at h
    · split at h
      · cases h
        assumption
      · cases h
    · cases h
  · cases h

theorem except_bind_ok {ε α β : Type} (a : α) (f : α → Except ε β) :
    (Except.ok a >>= f) = f a := rfl

theorem except_bind_error {ε α β : Type} (e : ε) (f : α → Except ε β) :
    ((Except.error e : Except ε α) >>= f) = Except.error e := rfl

/- ### Issue (src/unnamed/part_000, issue.ts)

An `Issue` value is its canonical byte form (`this.bytes` of the TS class):
20 bytes of currency for XRP, or 40 bytes of currency followed by issuer. -/

/-- Type guard `isIssueObject` (part_000 lines 19-22): the sorted key list is
exactly `["currency", "issuer"]`. -/
def isIssueObject (kvs : List (String × JVal)) : Bool :=
  match sortStrings (kvs.map Prod.fst) with
  | [k0, k1] => k0 == "currency" && k1 == "issuer"
  | _ => false

/-- `Issue.from` (part_000 lines 41-61) restricted to JSON inputs
(the `value instanceof Issue` branch returns its argument unchanged and is
not represented): a string must be exactly `"XRP"`
(`assertXrpIsValid`, lines 103-107); an object must pass `isIssueObject` and
its `currency`/`issuer` members are converted by the `Currency` and
`AccountID` codecs; anything else throws
`'Invalid type to construct an Amount'`. -/
def Issue.fromJson : JVal → Except String Bytes
  | .str s =>
      if s = "XRP" then Currency.fromString s
      else .error (s ++ " is an illegal amount")
  | .obj kvs =>
      if isIssueObject kvs then
        match jlookup kvs "currency", jlookup kvs "issuer" with
        | some cv, some iv => do
            let currency ← Currency.fromJVal cv
            let issuer ← AccountID.fromJVal iv
            .ok (currency ++ issuer)
        | _, _ => .error "Invalid type to construct an Amount"
      else .error "Invalid type to construct an Amount"

/-- `Issue.fromParser` (part_000 lines 69-76): read 20 bytes; if they decode
to the currency `"XRP"` stop, otherwise read the 20-byte issuer as well. -/
def Issue.fromParser (p : BinaryParser) : Except String (Bytes × BinaryParser) := do
  let (currency, p1) ← p.read 20
  if Currency.toJSON currency = "XRP" then .ok (currency, p1)
  else do
    let (issuer, p2) ← p1.read 20
    .ok (currency ++ issuer, p2)

/-- `Issue.toJSON` (part_000 lines 83-95): re-parse the value's own bytes; the
currency `"XRP"` is returned as the bare string, otherwise an object with the
`currency` and `issuer` members. (The TS code routes the bytes through their
hex rendering into a fresh `BinaryParser`; on well-formed bytes that is the
identity, so the model parses the bytes directly.) -/
def Issue.toJSON (bs : Bytes) : Except String JVal := do
  let (currency, p1) ← BinaryParser.read ⟨bs⟩ 20
  if Currency.toJSON currency = "XRP" then .ok (.str "XRP")
  else do
    let (issuer, _) ← p1.read 20
    .ok (.obj [("currency", .str (Currency.toJSON currency)),
               ("issuer", .str (encodeAccountID issuer))])

/- ### IssuedCurrency (issued-currency.ts)

Modelled from the spec: issued-currency.ts is not under src/. The spec's
XChainBridge layout (§4.3) gives its wire form as "20-or-40" bytes exactly as
for `Issue` ("LockingIssue:20-or-40"), and part_000 carries the same
structure; the codec is therefore modelled by the `Issue` functions. -/

/-- Modelled from the spec: `IssuedCurrency.from` on JSON. -/
def IssuedCurrency.fromJson : JVal → Except String Bytes := Issue.fromJson

/-- Modelled from the spec: `IssuedCurrency.fromParser`. -/
def IssuedCurrency.fromParser : BinaryParser → Except String (Bytes × BinaryParser) :=
  Issue.fromParser

/-- Modelled from the spec: `IssuedCurrency.toJSON`. -/
def IssuedCurrency.toJSON : Bytes → Except String JVal := Issue.toJSON

theorem Issue.fromJson_str_length {s : String} {bs : Bytes}
    (h : Issue.fromJson (.str s) = .ok bs) : bs.length = 20 := by
  rw [Issue.fromJson] at h
  split at h
  · cases hc : Currency.fromString s with
    | error e => rw [hc] at h; cases h
    | ok v =>
        rw [hc] at h
        cases h
        exact Currency.fromString_length hc
  · cases h

theorem Issue.fromJson_obj_length {kvs : List (String × JVal)} {bs : Bytes}
    (h : Issue.fromJson (.obj kvs) = .ok bs) : bs.length = 40 := by
  rw [Issue.fromJson] at h
  split at h
  · split at h
    · rename_i o1 o2 cv iv hcv hiv
      cases hc : Currency.fromJVal cv with
      | error e => rw [hc, except_bind_error] at h; cases h
      | ok c =>
          rw [hc, except_bind_ok] at h
          cases hi : AccountID.fromJVal iv with
          | error e => rw [hi, except_bind_error] at h; cases h
          | ok i =>
              rw [hi, except_bind_ok] at h
              cases h
              have hc20 : c.length = 20 := by
                cases cv with
                | str s => exact Currency.fromString_length hc
                | obj o => cases hc
              have hi20 : i.length = 20 := by
                cases iv with
                | str s => exact decodeAccountID_length hi
                | obj o => cases hi
              simp [hc20, hi20]
    · cases h
  · cases h

/- ### Issue round-trip machinery -/

/-- Canonical `Issue` byte encodings: the 20-byte XRP form is all zeros, and a
40-byte form carries a 20-byte currency (whose JSON is not `"XRP"`) followed
by a 20-byte issuer, all entries genuine bytes. These are exactly the byte
strings the encoder produces for values in canonical form. -/
def Issue.canonicalBytes (bs : Bytes) : Prop :=
  bs = zeros 20 ∨
  ∃ c i, bs = c ++ i ∧ c.length = 20 ∧ i.length = 20 ∧ WfBytes c ∧ WfBytes i ∧
    Currency.toJSON c ≠ "XRP"

theorem Currency.toJSON_zeros : Currency.toJSON (zeros 20) = "XRP" := by
  rw [Currency.toJSON, if_pos rfl]

theorem Issue.fromParser_xrp (c rest : Bytes) (hc : c.length = 20)
    (hx : Currency.toJSON c = "XRP") :
    Issue.fromParser ⟨c ++ rest⟩ = .ok (c, ⟨rest⟩) := by
  rw [Issue.fromParser, BinaryParser.read_append_of_length c rest hc, except_bind_ok]
  dsimp only
  rw [if_pos hx]

theorem Issue.fromParser_pair (c i rest : Bytes) (hc : c.length = 20)
    (hi : i.length = 20) (hx : Currency.toJSON c ≠ "XRP") :
    Issue.fromParser ⟨(c ++ i) ++ rest⟩ = .ok (c ++ i, ⟨rest⟩) := by
  rw [Issue.fromParser, List.append_assoc,
    BinaryParser.read_append_of_length c (i ++ rest) hc, except_bind_ok]
  dsimp only
  rw [if_neg hx, BinaryParser.read_append_of_length i rest hi, except_bind_ok]

theorem Issue.toJSON_xrp (c : Bytes) (hc : c.length = 20)
    (hx : Currency.toJSON c = "XRP") : Issue.toJSON c = .ok (.str "XRP") := by
  have hread : BinaryParser.read ⟨c⟩ 20 = .ok (c, ⟨[]⟩) := by
    have h := BinaryParser.read_append_of_length c [] hc
    rwa [List.append_nil] at h
  rw [Issue.toJSON, hread, except_bind_ok]
  dsimp only
  rw [if_pos hx]

theorem Issue.toJSON_pair (c i : Bytes) (hc : c.length = 20) (hi : i.length = 20)
    (hx : Currency.toJSON c ≠ "XRP") :
    Issue.toJSON (c ++ i) = .ok (.obj [("currency", .str (Currency.toJSON c)),
      ("issuer", .str (encodeAccountID i))]) := by
  have hread : BinaryParser.read ⟨c ++ i⟩ 20 = .ok (c, ⟨i⟩) :=
    BinaryParser.read_append_of_length c i hc
  rw [Issue.toJSON, hread, except_bind_ok]
  dsimp only
  rw [if_neg hx]
  have hread2 : BinaryParser.read ⟨i⟩ 20 = .ok (i, ⟨[]⟩) := by
    have h := BinaryParser.read_append_of_length i [] hi
    rwa [List.append_nil] at h
  rw [hread2, except_bind_ok]

theorem Issue.fromJson_xrpStr : Issue.fromJson (.str "XRP") = .ok (zeros 20) := by
  rw [Issue.fromJson, if_pos rfl, Currency.fromString, if_pos rfl]

theorem Issue.fromJson_currencyIssuerObj {cs is : String} {c i : Bytes}
    (hc : Currency.fromString cs = .ok c) (hi : decodeAccountID is = .ok i) :
    Issue.fromJson (.obj [("currency", .str cs), ("issuer", .str is)]) =
      .ok (c ++ i) := by
  have hio : isIssueObject [("currency", .str cs), ("issuer", .str is)] = true := by
    rfl
  rw [Issue.fromJson, if_pos hio]
  have hl1 : jlookup [("currency", .str cs), ("issuer", .str is)] "currency" =
      some (.str cs) := rfl
  have hl2 : jlookup [("currency", .str cs), ("issuer", .str is)] "issuer" =
      some (.str is) := rfl
  rw [hl1, hl2]
  dsimp only
  rw [show Currency.fromJVal (.str cs) = Currency.fromString cs from rfl, hc,
    except_bind_ok]
  rw [show AccountID.fromJVal (.str is) = decodeAccountID is from rfl, hi,
    except_bind_ok]

/-- `bytes → JSON → bytes` composition for `Issue`, mirroring the claim's
`Issue.from(Issue.fromParser(parser over b).toJSON()).toBytes()`. -/
def issueDecodeEncode (bs : Bytes) : Except String Bytes := do
  let (v, _) ← Issue.fromParser ⟨bs⟩
  let j ← Issue.toJSON v
  Issue.fromJson j

theorem issueDecodeEncode_canonical (bs : Bytes) (h : Issue.canonicalBytes bs) :
    issueDecodeEncode bs = .ok bs := by
  rcases h with h0 | ⟨c, i, hbs, hc, hi, hwc, hwi, hx⟩
  · subst h0
    have hp : Issue.fromParser ⟨zeros 20⟩ = .ok (zeros 20, ⟨[]⟩) := by
      have h := Issue.fromParser_xrp (zeros 20) [] (by simp [zeros]) Currency.toJSON_zeros
      rwa [List.append_nil] at h
    rw [issueDecodeEncode, hp, except_bind_ok]
    dsimp only
    rw [Issue.toJSON_xrp (zeros 20) (by simp [zeros]) Currency.toJSON_zeros,
      except_bind_ok, Issue.fromJson_xrpStr]
  · subst hbs
    have hp : Issue.fromParser ⟨c ++ i⟩ = .ok (c ++ i, ⟨[]⟩) := by
      have h := Issue.fromParser_pair c i [] hc hi hx
      rwa [List.append_nil] at h
    rw [issueDecodeEncode, hp, except_bind_ok]
    dsimp only
    rw [Issue.toJSON_pair c i hc hi hx, except_bind_ok]
    exact Issue.fromJson_currencyIssuerObj
      (Currency.fromString_toJSON c hc hwc (fun hh => absurd hh hx))
      (decodeAccountID_encodeAccountID i hi hwi)

/- ### XChainBridge (src/unnamed/part_001, xchain-bridge.ts)

`TYPE_ORDER` is `[LockingChainDoor : AccountID, LockingChainIssue :
IssuedCurrency, IssuingChainDoor : AccountID, IssuingChainIssue :
IssuedCurrency]`; the `forEach` loops over it are unrolled below, with the
`type === AccountID` marker byte 0x14 emitted (or skipped) before each door
account. -/

/-- The field names of `XChainBridge.TYPE_ORDER` (part_001 lines 45-51), in
their serialization order. -/
def XChainBridge.typeOrderNames : List String :=
  ["LockingChainDoor", "LockingChainIssue", "IssuingChainDoor", "IssuingChainIssue"]

/-- Type guard `isXChainBridgeObject` (part_001 lines 21-30): the sorted key
list is exactly the four bridge keys. -/
def isXChainBridgeObject (kvs : List (String × JVal)) : Bool :=
  match sortStrings (kvs.map Prod.fst) with
  | [k0, k1, k2, k3] =>
      k0 == "IssuingChainDoor" && k1 == "IssuingChainIssue" &&
      k2 == "LockingChainDoor" && k3 == "LockingChainIssue"
  | _ => false

/-- `XChainBridge.from` (part_001 lines 63-84) restricted to JSON inputs (the
`value instanceof XChainBridge` branch returns its argument unchanged and is
not represented): an object passing `isXChainBridgeObject` is serialized
field by field in `TYPE_ORDER`, a 0x14 byte preceding each door `AccountID`;
anything else throws. -/
def XChainBridge.fromJson : JVal → Except String Bytes
  | .obj kvs =>
      if isXChainBridgeObject kvs then
        match jlookup kvs "LockingChainDoor", jlookup kvs "LockingChainIssue",
            jlookup kvs "IssuingChainDoor", jlookup kvs "IssuingChainIssue" with
        | some ld, some li, some igd, some igi => do
            let lockingDoor ← AccountID.fromJVal ld
            let lockingIssue ← IssuedCurrency.fromJson li
            let issuingDoor ← AccountID.fromJVal igd
            let issuingIssue ← IssuedCurrency.fromJson igi
            .ok ([0x14] ++ lockingDoor ++ lockingIssue ++
                 [0x14] ++ issuingDoor ++ issuingIssue)
        | _, _, _, _ => .error "Invalid type to construct a XChainBridge"
      else .error "Invalid type to construct a XChainBridge"
  | _ => .error "Invalid type to construct a XChainBridge"

/-- `XChainBridge.fromParser` (part_001 lines 92-106): before each door
account the marker byte is skipped unchecked (`parser.skip(1)`) and a literal
0x14 is pushed in its place; the doors are read as 20-byte accounts and the
issues by the `IssuedCurrency` parser. -/
def XChainBridge.fromParser (p : BinaryParser) :
    Except String (Bytes × BinaryParser) := do
  let p1 ← p.skip 1
  let (lockingDoor, p2) ← p1.read 20
  let (lockingIssue, p3) ← IssuedCurrency.fromParser p2
  let p4 ← p3.skip 1
  let (issuingDoor, p5) ← p4.read 20
  let (issuingIssue, p6) ← IssuedCurrency.fromParser p5
  .ok ([0x14] ++ lockingDoor ++ lockingIssue ++
       [0x14] ++ issuingDoor ++ issuingIssue, p6)

/-- `XChainBridge.toJSON` (part_001 lines 113-125): re-parse the value's own
bytes, skipping the marker before each door, and build the JSON object in
`TYPE_ORDER` key order. -/
def XChainBridge.toJSON (bs : Bytes) : Except String JVal := do
  let p1 ← BinaryParser.skip ⟨bs⟩ 1
  let (lockingDoor, p2) ← p1.read 20
  let (lockingIssue, p3) ← IssuedCurrency.fromParser p2
  let lockingIssueJson ← IssuedCurrency.toJSON lockingIssue
  let p4 ← p3.skip 1
  let (issuingDoor, p5) ← p4.read 20
  let (issuingIssue, _) ← IssuedCurrency.fromParser p5
  let issuingIssueJson ← IssuedCurrency.toJSON issuingIssue
  .ok (.obj [("LockingChainDoor", .str (encodeAccountID lockingDoor)),
             ("LockingChainIssue", lockingIssueJson),
             ("IssuingChainDoor", .str (encodeAccountID issuingDoor)),
             ("IssuingChainIssue", issuingIssueJson)])

/- ### XChainBridge round-trip machinery -/

/-- A byte slice the `Issue`/`IssuedCurrency` parser consumes in one piece:
either 20 bytes decoding to the currency `"XRP"`, or a 20-byte non-XRP
currency followed by 20 more bytes. -/
def wfIssueSlice (i : Bytes) : Prop :=
  (i.length = 20 ∧ Currency.toJSON i = "XRP") ∨
  (∃ c a, i = c ++ a ∧ c.length = 20 ∧ a.length = 20 ∧ Currency.toJSON c ≠ "XRP")

theorem Issue.canonicalBytes_wfIssueSlice {i : Bytes}
    (h : Issue.canonicalBytes i) : wfIssueSlice i := by
  rcases h with h0 | ⟨c, a, hbs, hc, ha, _, _, hx⟩
  · left
    subst h0
    exact ⟨by simp [zeros], Currency.toJSON_zeros⟩
  · right
    exact ⟨c, a, hbs, hc, ha, hx⟩

theorem Issue.fromParser_wfSlice (i rest : Bytes) (h : wfIssueSlice i) :
    Issue.fromParser ⟨i ++ rest⟩ = .ok (i, ⟨rest⟩) := by
  rcases h with ⟨hl, hx⟩ | ⟨c, a, hbs, hc, ha, hx⟩
  · exact Issue.fromParser_xrp i rest hl hx
  · subst hbs
    exact Issue.fromParser_pair c a rest hc ha hx

/-- `Issue.toJSON` succeeds on a well-formed slice, and on canonical bytes the
resulting JSON re-encodes to the original bytes. -/
theorem Issue.json_roundtrip (i : Bytes) (h : Issue.canonicalBytes i) :
    ∃ j, Issue.toJSON i = .ok j ∧ Issue.fromJson j = .ok i := by
  rcases h with h0 | ⟨c, a, hbs, hc, ha, hwc, hwa, hx⟩
  · subst h0
    exact ⟨.str "XRP",
      Issue.toJSON_xrp (zeros 20) (by simp [zeros]) Currency.toJSON_zeros,
      Issue.fromJson_xrpStr⟩
  · subst hbs
    refine ⟨.obj [("currency", .str (Currency.toJSON c)),
        ("issuer", .str (encodeAccountID a))],
      Issue.toJSON_pair c a hc ha hx, ?_⟩
    exact Issue.fromJson_currencyIssuerObj
      (Currency.fromString_toJSON c hc hwc (fun hh => absurd hh hx))
      (decodeAccountID_encodeAccountID a ha hwa)

/-- Parsing a bridge buffer that is well-formed except for arbitrary marker
bytes `m1`, `m2`: the parse succeeds and the parsed value carries literal
0x14 markers regardless of `m1`, `m2`. -/
theorem XChainBridge.fromParser_parts (m1 m2 : Nat) (d1 i1 d2 i2 rest : Bytes)
    (hd1 : d1.length = 20) (hd2 : d2.length = 20)
    (h1 : wfIssueSlice i1) (h2 : wfIssueSlice i2) :
    XChainBridge.fromParser ⟨[m1] ++ d1 ++ i1 ++ [m2] ++ d2 ++ i2 ++ rest⟩ =
      .ok ([0x14] ++ d1 ++ i1 ++ [0x14] ++ d2 ++ i2, ⟨rest⟩) := by
  rw [XChainBridge.fromParser]
  simp only [List.append_assoc, List.singleton_append, List.cons_append, List.nil_append]
  rw [BinaryParser.skip_cons, except_bind_ok]
  rw [BinaryParser.read_append_of_length d1 (i1 ++ (m2 :: (d2 ++ (i2 ++ rest))))
    hd1, except_bind_ok]
  dsimp only
  rw [show IssuedCurrency.fromParser = Issue.fromParser from rfl]
  rw [Issue.fromParser_wfSlice i1 (m2 :: (d2 ++ (i2 ++ rest))) h1, except_bind_ok]
  dsimp only
  rw [BinaryParser.skip_cons, except_bind_ok]
  rw [BinaryParser.read_append_of_length d2 (i2 ++ rest) hd2, except_bind_ok]
  dsimp only
  rw [Issue.fromParser_wfSlice i2 rest h2, except_bind_ok]

/-- `XChainBridge.toJSON` on a marker-correct buffer, with the two issue JSON
conversions abstracted. -/
theorem XChainBridge.toJSON_parts (m1 m2 : Nat) (d1 i1 d2 i2 : Bytes) (j1 j2 : JVal)
    (hd1 : d1.length = 20) (hd2 : d2.length = 20)
    (h1 : wfIssueSlice i1) (h2 : wfIssueSlice i2)
    (hj1 : Issue.toJSON i1 = .ok j1) (hj2 : Issue.toJSON i2 = .ok j2) :
    XChainBridge.toJSON ([m1] ++ d1 ++ i1 ++ [m2] ++ d2 ++ i2) =
      .ok (.obj [("LockingChainDoor", .str (encodeAccountID d1)),
                 ("LockingChainIssue", j1),
                 ("IssuingChainDoor", .str (encodeAccountID d2)),
                 ("IssuingChainIssue", j2)]) := by
  rw [XChainBridge.toJSON]
  simp only [List.append_assoc, List.singleton_append, List.cons_append, List.nil_append]
  rw [BinaryParser.skip_cons, except_bind_ok]
  rw [BinaryParser.read_append_of_length d1 (i1 ++ (m2 :: (d2 ++ i2))) hd1,
    except_bind_ok]
  dsimp only
  rw [show IssuedCurrency.fromParser = Issue.fromParser from rfl]
  rw [Issue.fromParser_wfSlice i1 (m2 :: (d2 ++ i2)) h1, except_bind_ok]
  dsimp only
  rw [show IssuedCurrency.toJSON = Issue.toJSON from rfl]
  rw [hj1, except_bind_ok]
  rw [BinaryParser.skip_cons, except_bind_ok]
  have hread : BinaryParser.read ⟨d2 ++ i2⟩ 20 = .ok (d2, ⟨i2⟩) :=
    BinaryParser.read_append_of_length d2 i2 hd2
  rw [hread, except_bind_ok]
  dsimp only
  have hp2 : Issue.fromParser ⟨i2⟩ = .ok (i2, ⟨[]⟩) := by
    have h := Issue.fromParser_wfSlice i2 [] h2
    rwa [List.append_nil] at h
  rw [hp2, except_bind_ok]
  dsimp only
  rw [hj2, except_bind_ok]

/-- `XChainBridge.from` on a four-field bridge object with the keys in
`TYPE_ORDER` order. -/
theorem XChainBridge.fromJson_obj {ds1 ds2 : String} {j1 j2 : JVal}
    {bd1 bi1 bd2 bi2 : Bytes}
    (hd1 : decodeAccountID ds1 = .ok bd1) (hi1 : Issue.fromJson j1 = .ok bi1)
    (hd2 : decodeAccountID ds2 = .ok bd2) (hi2 : Issue.fromJson j2 = .ok bi2) :
    XChainBridge.fromJson (.obj [("LockingChainDoor", .str ds1),
        ("LockingChainIssue", j1), ("IssuingChainDoor", .str ds2),
        ("IssuingChainIssue", j2)]) =
      .ok ([0x14] ++ bd1 ++ bi1 ++ [0x14] ++ bd2 ++ bi2) := by
  have hio : isXChainBridgeObject [("LockingChainDoor", .str ds1),
      ("LockingChainIssue", j1), ("IssuingChainDoor", .str ds2),
      ("IssuingChainIssue", j2)] = true := by rfl
  rw [XChainBridge.fromJson, if_pos hio]
  rw [show jlookup [("LockingChainDoor", JVal.str ds1),
      ("LockingChainIssue", j1), ("IssuingChainDoor", JVal.str ds2),
      ("IssuingChainIssue", j2)] "LockingChainDoor" = some (.str ds1) from rfl]
  rw [show jlookup [("LockingChainDoor", JVal.str ds1),
      ("LockingChainIssue", j1), ("IssuingChainDoor", JVal.str ds2),
      ("IssuingChainIssue", j2)] "LockingChainIssue" = some j1 from rfl]
  rw [show jlookup [("LockingChainDoor", JVal.str ds1),
      ("LockingChainIssue", j1), ("IssuingChainDoor", JVal.str ds2),
      ("IssuingChainIssue", j2)] "IssuingChainDoor" = some (.str ds2) from rfl]
  rw [show jlookup [("LockingChainDoor", JVal.str ds1),
      ("LockingChainIssue", j1), ("IssuingChainDoor", JVal.str ds2),
      ("IssuingChainIssue", j2)] "IssuingChainIssue" = some j2 from rfl]
  dsimp only
  rw [show AccountID.fromJVal (.str ds1) = decodeAccountID ds1 from rfl, hd1,
    except_bind_ok]
  rw [show IssuedCurrency.fromJson = Issue.fromJson from rfl, hi1, except_bind_ok]
  rw [show AccountID.fromJVal (.str ds2) = decodeAccountID ds2 from rfl, hd2,
    except_bind_ok]
  rw [hi2, except_bind_ok]

/-- Canonical `XChainBridge` byte encodings: literal 0x14 markers, 20-byte
doors, canonical issue encodings. -/
def XChainBridge.canonicalBytes (bs : Bytes) : Prop :=
  ∃ d1 i1 d2 i2, bs = [0x14] ++ d1 ++ i1 ++ [0x14] ++ d2 ++ i2 ∧
    d1.length = 20 ∧ d2.length = 20 ∧ WfBytes d1 ∧ WfBytes d2 ∧
    Issue.canonicalBytes i1 ∧ Issue.canonicalBytes i2

/-- `bytes → JSON → bytes` composition for `XChainBridge`. -/
def bridgeDecodeEncode (bs : Bytes) : Except String Bytes := do
  let (v, _) ← XChainBridge.fromParser ⟨bs⟩
  let j ← XChainBridge.toJSON v
  XChainBridge.fromJson j

theorem bridgeDecodeEncode_canonical (bs : Bytes)
    (h : XChainBridge.canonicalBytes bs) : bridgeDecodeEncode bs = .ok bs := by
  obtain ⟨d1, i1, d2, i2, hbs, hd1, hd2, hwd1, hwd2, hc1, hc2⟩ := h
  have hs1 := Issue.canonicalBytes_wfIssueSlice hc1
  have hs2 := Issue.canonicalBytes_wfIssueSlice hc2
  obtain ⟨j1, hj1, hf1⟩ := Issue.json_roundtrip i1 hc1
  obtain ⟨j2, hj2, hf2⟩ := Issue.json_roundtrip i2 hc2
  subst hbs
  have hp : XChainBridge.fromParser
      ⟨[0x14] ++ d1 ++ i1 ++ [0x14] ++ d2 ++ i2⟩ =
      .ok ([0x14] ++ d1 ++ i1 ++ [0x14] ++ d2 ++ i2, ⟨[]⟩) := by
    have h := XChainBridge.fromParser_parts 0x14 0x14 d1 i1 d2 i2 [] hd1 hd2 hs1 hs2
    rwa [List.append_nil] at h
  rw [bridgeDecodeEncode, hp, except_bind_ok]
  dsimp only
  rw [XChainBridge.toJSON_parts 0x14 0x14 d1 i1 d2 i2 j1 j2 hd1 hd2 hs1 hs2 hj1 hj2,
    except_bind_ok]
  exact XChainBridge.fromJson_obj
    (decodeAccountID_encodeAccountID d1 hd1 hwd1) hf1
    (decodeAccountID_encodeAccountID d2 hd2 hwd2) hf2

/- ### Field definitions, headers, VL prefixes

Modelled from the spec (§3, §4.1, §4.2): enums/definitions and the field
header codec are not under src/. A transaction JSON is abstracted as the list
of its present fields, each resolved through the registry to a
`FieldInstance` and paired with its value's canonical byte encoding. -/

/-- Modelled from the spec: a registry `FieldDefinition` — name, type code,
field code and the three wire flags. -/
structure FieldInstance where
  name : String
  typeCode : Nat
  fieldCode : Nat
  isVLEncoded : Bool
  isSerialized : Bool
  isSigningField : Bool
deriving DecidableEq

/-- Modelled from the spec: the sort key "(type code, field code)" packed the
way the registry's `ordinal` packs it. -/
def FieldInstance.ordinal (f : FieldInstance) : Nat :=
  f.typeCode * 65536 + f.fieldCode

/-- Modelled from the spec (§4.2): the compact field header. -/
def fieldHeader (typeCode fieldCode : Nat) : Bytes :=
  if typeCode < 16 then
    if fieldCode < 16 then [typeCode * 16 + fieldCode]
    else [typeCode * 16, fieldCode]
  else
    if fieldCode < 16 then [fieldCode, typeCode]
    else [0, typeCode, fieldCode]

/-- Modelled from the spec (§4.5): the 1/2/3-byte variable-length prefix. -/
def encodeVariableLength (len : Nat) : Bytes :=
  if len ≤ 192 then [len]
  else if len ≤ 12480 then
    [193 + (len - 193) / 256, (len - 193) % 256]
  else
    [241 + (len - 12481) / 65536, ((len - 12481) / 256) % 256, (len - 12481) % 256]

/-- Modelled from the spec (§4.4 step 1-2): one field's wire image — header,
then the value bytes, VL-prefixed when the field is VL-encoded. -/
def emitField (fv : FieldInstance × Bytes) : Bytes :=
  fieldHeader fv.1.typeCode fv.1.fieldCode ++
    (if fv.1.isVLEncoded then encodeVariableLength fv.2.length ++ fv.2 else fv.2)

/-- Stable insertion into a list sorted by ordinal (ties keep earlier fields
first, as the stable JS sort does). -/
def insertFieldSorted (x : FieldInstance × Bytes) :
    List (FieldInstance × Bytes) → List (FieldInstance × Bytes)
  | [] => [x]
  | y :: rest =>
      if x.1.ordinal ≤ y.1.ordinal then x :: y :: rest
      else y :: insertFieldSorted x rest

/-- Canonical field ordering: stable sort ascending by ordinal. -/
def sortFields : List (FieldInstance × Bytes) → List (FieldInstance × Bytes)
  | [] => []
  | x :: rest => insertFieldSorted x (sortFields rest)

theorem mem_insertFieldSorted {a x : FieldInstance × Bytes}
    {l : List (FieldInstance × Bytes)} :
    a ∈ insertFieldSorted x l ↔ a = x ∨ a ∈ l := by
  induction l with
  | nil => simp [insertFieldSorted]
  | cons y rest ih =>
      by_cases h : x.1.ordinal ≤ y.1.ordinal
      · simp [insertFieldSorted, h]
      · simp [insertFieldSorted, h, ih]
        tauto

theorem mem_sortFields {a : FieldInstance × Bytes}
    {l : List (FieldInstance × Bytes)} : a ∈ sortFields l ↔ a ∈ l := by
  induction l with
  | nil => simp [sortFields]
  | cons x rest ih => simp [sortFields, mem_insertFieldSorted, ih]

/-- Modelled from the spec (§4.4): the field list `STObject.from` retains —
every present field that has `isSerialized=true`, in canonical order, further
filtered by the caller's predicate when one is supplied: "the signing filter
and the 'isSerialized' filter must both apply". -/
def STObject.selectFields (fields : List (FieldInstance × Bytes))
    (filt : Option (FieldInstance → Bool)) : List (FieldInstance × Bytes) :=
  let sorted := sortFields (fields.filter (fun fv => fv.1.isSerialized))
  match filt with
  | none => sorted
  | some p => sorted.filter (fun fv => p fv.1)

/-- Concatenation of byte strings (`Buffer.concat` over a `BytesList`). -/
def concatBytes : List Bytes → Bytes
  | [] => []
  | b :: rest => b ++ concatBytes rest

/-- Modelled from the spec: `STObject.from(object, filter).toBytesSink(...)` —
the selected fields' wire images in order. -/
def STObject.toBytes (fields : List (FieldInstance × Bytes))
    (filt : Option (FieldInstance → Bool)) : Bytes :=
  concatBytes ((STObject.selectFields fields filt).map emitField)

/- ### Hash prefixes

Modelled from the spec (§4.6): hash-prefixes.ts is not under src/. -/

namespace HashPrefixes

/-- Modelled from the spec: the transaction-signing hash domain separator. -/
def transactionSig : Bytes := [0x53, 0x54, 0x58, 0x00]

/-- Modelled from the spec: the multi-signing hash domain separator. -/
def transactionMultiSig : Bytes := [0x53, 0x4D, 0x54, 0x00]

/-- Modelled from the spec: the payment-channel-claim domain separator. -/
def paymentChannelClaim : Bytes := [0x43, 0x4C, 0x4D, 0x00]

end HashPrefixes

/- ### Binary facade (src/unnamed/part_001, binary.ts) -/

/-- Options of `serializeObject` (binary.ts `OptionObject`): optional leading
bytes, optional trailing bytes, and the signing-fields-only switch. (The TS
field names `prefix`/`suffix` are shortened to `pre`/`suf`.) -/
structure SerializeOpts where
  pre : Option Bytes
  suf : Option Bytes
  signingFieldsOnly : Bool

/-- `serializeObject` (part_001 binary.ts lines 187-206): put the optional
leading bytes, serialize the object with the signing filter
`(f) => f.isSigningField` exactly when `signingFieldsOnly`, put the optional
trailing bytes. -/
def serializeObject (object : List (FieldInstance × Bytes))
    (opts : SerializeOpts) : Bytes :=
  let filt : Option (FieldInstance → Bool) :=
    if opts.signingFieldsOnly then some (fun f => f.isSigningField) else none
  (opts.pre.getD []) ++ STObject.toBytes object filt ++ (opts.suf.getD [])

/-- `signingData` (binary.ts lines 215-220): `serializeObject` with the given
leading bytes (`HashPrefixes.transactionSig` at the TS call sites that use
the default) and `signingFieldsOnly: true`. -/
def signingData (transaction : List (FieldInstance × Bytes)) (pre : Bytes) :
    Bytes :=
  serializeObject transaction ⟨some pre, none, true⟩

/-- The `string | AccountID` argument of `multiSigningData`. -/
inductive AccountIDInput where
  | address : String → AccountIDInput
  | accountID : Bytes → AccountIDInput

/-- Modelled from the spec: `AccountID.from` on `string | AccountID` — an
`AccountID` instance passes through, a string goes through the external
address codec. -/
def AccountID.fromInput : AccountIDInput → Except String Bytes
  | .address s => decodeAccountID s
  | .accountID bs => .ok bs

/-- An `AccountID` instance always carries 20 bytes. -/
def AccountIDInput.wf : AccountIDInput → Prop
  | .address _ => True
  | .accountID bs => bs.length = 20

/-- `multiSigningData` (binary.ts lines 260-271): `serializeObject` with the
multi-signing hash domain separator leading, the signing account's 20 bytes
trailing, and `signingFieldsOnly: true`. -/
def multiSigningData (transaction : List (FieldInstance × Bytes))
    (signingAccount : AccountIDInput) : Except String Bytes := do
  let suf ← AccountID.fromInput signingAccount
  .ok (serializeObject transaction ⟨some HashPrefixes.transactionMultiSig, some suf, true⟩)

/- ### Hash256, UInt64, Amount

Modelled from the spec (§4.3): hash-256.ts, uint-64.ts and amount.ts are not
under src/. -/

/-- Modelled from the spec: `Hash256.from` on a hex string — exactly 32
bytes, hex case-insensitive. -/
def Hash256.fromString (s : String) : Except String Bytes :=
  match bytesOfHex s.toList with
  | some bs => if bs.length = 32 then .ok bs else .error "Invalid Hash length 32"
  | none => .error "Invalid Hash length 32"

theorem Hash256.fromString_len32 {s : String} {bs : Bytes}
    (h : Hash256.fromString s = .ok bs) : bs.length = 32 := by
  rw [Hash256.fromString] at h
  split at h
  · split at h
    · cases h; assumption
    · cases h
  · cases h

/-- Big-endian bytes of a value, fixed width (`width` bytes). -/
def toBytesBE (width value : Nat) : Bytes :=
  match width with
  | 0 => []
  | w + 1 => toBytesBE w (value / 256) ++ [value % 256]

theorem toBytesBE_length (width value : Nat) :
    (toBytesBE width value).length = width := by
  induction width generalizing value with
  | zero => rfl
  | succ w ih => simp [toBytesBE, ih]

/-- Modelled from the spec: `UInt64.from` on a non-negative integer —
"big-endian, fixed width" 8 bytes. -/
def UInt64.fromNat (n : Nat) : Except String Bytes :=
  if n < 2 ^ 64 then .ok (toBytesBE 8 n) else .error "value overflows uint64"

/-- Digits of a decimal integer literal (the strings `big-integer` accepts
for drops amounts). -/
def decDigitVal (c : Char) : Option Nat :=
  if 48 ≤ c.toNat ∧ c.toNat ≤ 57 then some (c.toNat - 48) else none

/-- Fold decimal digits into a number; fails on a non-digit. -/
def foldDecDigits (acc : Nat) : List Char → Option Nat
  | [] => some acc
  | c :: cs => do
      let d ← decDigitVal c
      foldDecDigits (acc * 10 + d) cs

/-- Modelled from the spec: `bigInt(String(amount))` on a drops string — a
non-empty all-digit decimal literal. -/
def parseDropsString (s : String) : Except String Nat :=
  match s.toList with
  | [] => .error "Invalid integer"
  | cs =>
      match foldDecDigits 0 cs with
      | some n => .ok n
      | none => .error "Invalid integer"

/-- Split a decimal literal at the dot, keeping the fraction digits. -/
def splitOnDot : List Char → List Char × List Char
  | [] => ([], [])
  | c :: rest =>
      if c = '.' then ([], rest)
      else
        let (a, b) := splitOnDot rest
        (c :: a, b)

/-- Modelled from the spec: "value parsed as arbitrary-precision decimal" — an
optional sign, integer digits, optional dot and fraction digits (scientific
notation is not modelled). Returns (negative, mantissa, exponent) with
`value = ±mantissa × 10^exponent`. -/
def parseDecimal (s : String) : Except String (Bool × Nat × Int) :=
  let cs := s.toList
  let (neg, cs) := match cs with
    | '-' :: rest => (true, rest)
    | _ => (false, cs)
  let (ip, fp) := splitOnDot cs
  if ip ++ fp = [] then .error "unsupported value"
  else
    match foldDecDigits 0 (ip ++ fp) with
    | some m => .ok (neg, m, -(fp.length : Int))
    | none => .error "unsupported value"

/-- Modelled from the spec: normalization of an issued amount — "find
exponent e such that mantissa m = value × 10^(-e) is integer with |m| in
[10^15, 10^16)"; scaling down a mantissa with a nonzero remainder would lose
precision and fails as an overflowing amount. Structurally recursive on
explicit fuel. -/
def normalizeMantissa (fuel : Nat) (m : Nat) (e : Int) :
    Except String (Nat × Int) :=
  match fuel with
  | 0 => .error "unrepresentable amount"
  | fuel + 1 =>
      if m < 10 ^ 15 then normalizeMantissa fuel (m * 10) (e - 1)
      else if 10 ^ 16 ≤ m then
        if m % 10 = 0 then normalizeMantissa fuel (m / 10) (e + 1)
        else .error "amount out of range"
      else .ok (m, e)

/-- Modelled from the spec: the 8 value bytes of an issued amount — sign bit
63 set for positive, native-flag bit 62 clear, exponent stored biased by 97
above the 54-bit mantissa; the canonical zero is the bare sign bit. -/
def issuedValueBytes (neg : Bool) (m : Nat) (e : Int) : Bytes :=
  if m = 0 then toBytesBE 8 (2 ^ 63)
  else toBytesBE 8 ((if neg then 0 else 2 ^ 63) + (e + 97).toNat * 2 ^ 54 + m)

/-- Modelled from the spec: `Amount.from` on an issued-currency JSON object
`{value, currency, issuer}` — parse and normalize the decimal value (fails
UnderflowAmount outside exponent range [-96, 80]), then 8 value bytes,
20 currency bytes, 20 issuer bytes. -/
def Amount.fromIssued (value currency issuer : String) : Except String Bytes := do
  let (neg, m0, e0) ← parseDecimal value
  if m0 = 0 then do
    let c ← Currency.fromString currency
    let i ← decodeAccountID issuer
    .ok (issuedValueBytes neg 0 0 ++ c ++ i)
  else do
    let (m, e) ← normalizeMantissa 200 m0 e0
    if e < -96 ∨ 80 < e then .error "amount out of range"
    else do
      let c ← Currency.fromString currency
      let i ← decodeAccountID issuer
      .ok (issuedValueBytes neg m e ++ c ++ i)

theorem Amount.fromIssued_length {value currency issuer : String} {bs : Bytes}
    (h : Amount.fromIssued value currency issuer = .ok bs) : bs.length = 48 := by
  rw [Amount.fromIssued] at h
  cases hp : parseDecimal value with
  | error e => rw [hp, except_bind_error] at h; cases h
  | ok t =>
      obtain ⟨neg, m0, e0⟩ := t
      rw [hp, except_bind_ok] at h
      dsimp only at h
      by_cases hm0z : m0 = 0
      · rw [if_pos hm0z] at h
        cases hc : Currency.fromString currency with
        | error e => rw [hc, except_bind_error] at h; cases h
        | ok c =>
            rw [hc, except_bind_ok] at h
            cases hi : decodeAccountID issuer with
            | error e => rw [hi, except_bind_error] at h; cases h
            | ok i =>
                rw [hi, except_bind_ok] at h
                cases h
                have h1 := Currency.fromString_length hc
                have h2 := decodeAccountID_length hi
                simp [issuedValueBytes, toBytesBE_length, h1, h2]
      · rw [if_neg hm0z] at h
        cases hn : normalizeMantissa 200 m0 e0 with
        | error e => rw [hn, except_bind_error] at h; cases h
        | ok t2 =>
            obtain ⟨m, e⟩ := t2
            rw [hn, except_bind_ok] at h
            dsimp only at h
            split at h
            · cases h
            · cases hc : Currency.fromString currency with
              | error er => rw [hc, except_bind_error] at h; cases h
              | ok c =>
                  rw [hc, except_bind_ok] at h
                  cases hi : decodeAccountID issuer with
                  | error er => rw [hi, except_bind_error] at h; cases h
                  | ok i =>
                      rw [hi, except_bind_ok] at h
                      cases h
                      have h1 := Currency.fromString_length hc
                      have h2 := decodeAccountID_length hi
                      by_cases hm0 : m = 0 <;>
                        simp [issuedValueBytes, hm0, toBytesBE_length, h1, h2]

/-- The JSON `Amount` union used by a payment-channel claim: a drops string
or an issued-currency object. -/
inductive AmountJSON where
  | drops : String → AmountJSON
  | issued : String → String → String → AmountJSON

/-- `ClaimObject` (binary.ts lines 226-231): channel hex string and amount. -/
structure ClaimObject where
  channel : String
  amount : AmountJSON

/-- `signingClaimData` (part_001 binary.ts lines 236-251): put the
payment-channel-claim domain separator, the channel as a 32-byte hash, then
the amount — through the `Amount` codec (48 bytes) when the amount is an
object, else through `bigInt` and the `UInt64` codec (8 bytes). -/
def signingClaimData (claim : ClaimObject) : Except String Bytes := do
  let channel ← Hash256.fromString claim.channel
  match claim.amount with
  | .issued v c i => do
      let amount ← Amount.fromIssued v c i
      .ok (HashPrefixes.paymentChannelClaim ++ channel ++ amount)
  | .drops s => do
      let num ← parseDropsString s
      let amount ← UInt64.fromNat num
      .ok (HashPrefixes.paymentChannelClaim ++ channel ++ amount)

/- ### Helper lemmas for the claim theorems -/

theorem AccountID.fromJVal_length {j : JVal} {bs : Bytes}
    (h : AccountID.fromJVal j = .ok bs) : bs.length = 20 := by
  cases j with
  | str s => exact decodeAccountID_length h
  | obj kvs => cases h

/-- Every accepted `Issue.from` input is the string `"XRP"` yielding the
20-byte zero currency, or an object yielding a 20-byte currency followed by a
20-byte issuer. -/
theorem Issue.fromJson_ok_cases (j : JVal) (bs : Bytes)
    (h : Issue.fromJson j = .ok bs) :
    (j = .str "XRP" ∧ bs = zeros 20) ∨
    (∃ kvs c i, j = .obj kvs ∧ bs = c ++ i ∧ c.length = 20 ∧ i.length = 20) := by
  cases j with
  | str s =>
      left
      rw [Issue.fromJson] at h
      split at h
      · rename_i hs
        subst hs
        rw [Currency.fromString, if_pos rfl] at h
        cases h
        exact ⟨rfl, rfl⟩
      · cases h
  | obj kvs =>
      right
      refine ⟨kvs, ?_⟩
      rw [Issue.fromJson] at h
      split at h
      · split at h
        · rename_i o1 o2 cv iv hcv hiv
          cases hc : Currency.fromJVal cv with
          | error e => rw [hc, except_bind_error] at h; cases h
          | ok c =>
              rw [hc, except_bind_ok] at h
              cases hi : AccountID.fromJVal iv with
              | error e => rw [hi, except_bind_error] at h; cases h
              | ok i =>
                  rw [hi, except_bind_ok] at h
                  cases h
                  have hc20 : c.length = 20 := by
                    cases cv with
                    | str s => exact Currency.fromString_length hc
                    | obj o => cases hc
                  exact ⟨c, i, rfl, rfl, hc20, AccountID.fromJVal_length hi⟩
        · cases h
      · cases h

/- ### Claim theorems -/

/-- C1: on the signing paths (`serializeObject` with `signingFieldsOnly=true`,
which is what `signingData` and `multiSigningData` invoke), a field is
emitted if and only if its definition has `isSigningField=true` and
`isSerialized=true`; fields failing either flag are omitted. The second
conjunct ties the emitted-field list to the bytes `signingData` produces. -/
theorem claim_C1_signing_field_filter :
    ∀ (tx : List (FieldInstance × Bytes)) (f : FieldInstance) (v : Bytes),
      ((f, v) ∈ STObject.selectFields tx (some (fun g => g.isSigningField)) ↔
        ((f, v) ∈ tx ∧ f.isSigningField = true ∧ f.isSerialized = true)) ∧
      ∀ pre : Bytes, signingData tx pre =
        pre ++ concatBytes ((STObject.selectFields tx
          (some (fun g => g.isSigningField))).map emitField) := by
  intro tx f v
  constructor
  · simp only [STObject.selectFields, List.mem_filter, mem_sortFields]
    constructor
    · rintro ⟨⟨hmem, hser⟩, hsig⟩
      exact ⟨hmem, hsig, hser⟩
    · rintro ⟨hmem, hsig, hser⟩
      exact ⟨⟨hmem, hser⟩, hsig⟩
  · intro pre
    simp [signingData, serializeObject, STObject.toBytes]

/-- C2: `multiSigningData(tx, account)` is exactly the multi-signing domain
separator `0x534D5400`, then the signing-fields-only serialization of `tx`,
then the raw 20 bytes of the signing account's AccountID with no VL length
prefix. -/
theorem claim_C2_multisigning_layout (tx : List (FieldInstance × Bytes))
    (a : AccountIDInput) (out : Bytes) (hwf : AccountIDInput.wf a)
    (h : multiSigningData tx a = .ok out) :
    ∃ acct : Bytes, AccountID.fromInput a = .ok acct ∧ acct.length = 20 ∧
      out = [0x53, 0x4D, 0x54, 0x00] ++
        serializeObject tx ⟨none, none, true⟩ ++ acct := by
  rw [multiSigningData] at h
  cases ha : AccountID.fromInput a with
  | error e => rw [ha, except_bind_error] at h; cases h
  | ok acct =>
      rw [ha, except_bind_ok] at h
      cases h
      refine ⟨acct, rfl, ?_, ?_⟩
      · cases a with
        | address s => exact decodeAccountID_length ha
        | accountID bs => cases ha; exact hwf
      · simp [serializeObject, HashPrefixes.transactionMultiSig]

theorem claim_C2_multisigning_layout_witness :
    ∃ acct : Bytes, AccountID.fromInput (.accountID (zeros 20)) = .ok acct ∧
      acct.length = 20 ∧
      ([0x53, 0x4D, 0x54, 0x00] ++ zeros 20 : Bytes) =
        [0x53, 0x4D, 0x54, 0x00] ++
          serializeObject [] ⟨none, none, true⟩ ++ acct :=
  claim_C2_multisigning_layout [] (.accountID (zeros 20))
    ([0x53, 0x4D, 0x54, 0x00] ++ zeros 20) rfl rfl

/-- C7: every string other than `"XRP"` is rejected by `Issue.from` with the
`illegal amount` error; the only string-form JSON an Issue accepts is
exactly `"XRP"`. -/
theorem claim_C7_issue_string_only_xrp (s : String) (hs : s ≠ "XRP") :
    Issue.fromJson (.str s) = .error (s ++ " is an illegal amount") := by
  rw [Issue.fromJson, if_neg hs]

theorem claim_C7_issue_string_only_xrp_witness :
    Issue.fromJson (.str "USD") = .error ("USD" ++ " is an illegal amount") :=
  claim_C7_issue_string_only_xrp "USD" (by decide)

theorem isIssueObject_eq_true_iff (kvs : List (String × JVal)) :
    isIssueObject kvs = true ↔
      sortStrings (kvs.map Prod.fst) = ["currency", "issuer"] := by
  unfold isIssueObject
  split
  · rename_i k0 k1 heq
    rw [heq]
    simp [Bool.and_eq_true, beq_iff_eq]
  · rename_i hne
    constructor
    · intro hfalse
      cases hfalse
    · intro hs
      exact absurd hs (hne "currency" "issuer")

/-- C10: `Issue.from` accepts an object only when its key set is exactly
`{currency, issuer}`; an object missing `issuer` or carrying any additional
key is rejected with `'Invalid type to construct an Amount'`. -/
theorem claim_C10_issue_object_keys (kvs : List (String × JVal))
    (h : "issuer" ∉ kvs.map Prod.fst ∨
      ∃ k ∈ kvs.map Prod.fst, k ≠ "currency" ∧ k ≠ "issuer") :
    Issue.fromJson (.obj kvs) = .error "Invalid type to construct an Amount" := by
  have hio : ¬(isIssueObject kvs = true) := by
    rw [isIssueObject_eq_true_iff]
    intro hs
    have hmem : ∀ x : String, x ∈ kvs.map Prod.fst ↔
        x ∈ (["currency", "issuer"] : List String) := by
      intro x
      rw [← hs, mem_sortStrings]
    rcases h with h1 | ⟨k, hk, hkc, hki⟩
    · exact h1 ((hmem "issuer").mpr (by simp))
    · have := (hmem k).mp hk
      simp at this
      tauto
  rw [Issue.fromJson, if_neg hio]

theorem claim_C10_issue_object_keys_witness :
    Issue.fromJson (.obj [("currency", .str "XRP")]) =
      .error "Invalid type to construct an Amount" :=
  claim_C10_issue_object_keys [("currency", .str "XRP")] (Or.inl (by decide))

theorem UInt64.fromNat_length {n : Nat} {bs : Bytes}
    (h : UInt64.fromNat n = .ok bs) : bs.length = 8 := by
  rw [UInt64.fromNat] at h
  split at h
  · cases h
    exact toBytesBE_length 8 n
  · cases h

/-- C3: `signingClaimData` emits exactly the payment-channel-claim domain
separator `0x434C4D00`, then the channel as a 32-byte hash, then the amount —
8 big-endian bytes through the `UInt64` codec when the amount is a drops
string, the 48-byte issued-currency encoding when it is an object. -/
theorem claim_C3_signing_claim_layout (claim : ClaimObject) (out : Bytes)
    (h : signingClaimData claim = .ok out) :
    ∃ ch, Hash256.fromString claim.channel = .ok ch ∧ ch.length = 32 ∧
      ((∃ s num amt, claim.amount = .drops s ∧ parseDropsString s = .ok num ∧
          UInt64.fromNat num = .ok amt ∧ amt.length = 8 ∧
          out = [0x43, 0x4C, 0x4D, 0x00] ++ ch ++ amt) ∨
       (∃ v c i amt, claim.amount = .issued v c i ∧
          Amount.fromIssued v c i = .ok amt ∧ amt.length = 48 ∧
          out = [0x43, 0x4C, 0x4D, 0x00] ++ ch ++ amt)) := by
  rw [signingClaimData] at h
  cases hch : Hash256.fromString claim.channel with
  | error e => rw [hch, except_bind_error] at h; cases h
  | ok ch =>
      rw [hch, except_bind_ok] at h
      refine ⟨ch, rfl, Hash256.fromString_len32 hch, ?_⟩
      cases ham : claim.amount with
      | drops s =>
          rw [ham] at h
          dsimp only at h
          cases hn : parseDropsString s with
          | error e => rw [hn, except_bind_error] at h; cases h
          | ok num =>
              rw [hn, except_bind_ok] at h
              cases hu : UInt64.fromNat num with
              | error e => rw [hu, except_bind_error] at h; cases h
              | ok amt =>
                  rw [hu, except_bind_ok] at h
                  cases h
                  exact Or.inl ⟨s, num, amt, rfl, hn, hu,
                    UInt64.fromNat_length hu, rfl⟩
      | issued v c i =>
          rw [ham] at h
          dsimp only at h
          cases ha : Amount.fromIssued v c i with
          | error e => rw [ha, except_bind_error] at h; cases h
          | ok amt =>
              rw [ha, except_bind_ok] at h
              cases h
              exact Or.inr ⟨v, c, i, amt, rfl, ha,
                Amount.fromIssued_length ha, rfl⟩

theorem claim_C3_signing_claim_layout_witness :
    ∃ ch, Hash256.fromString
        "0000000000000000000000000000000000000000000000000000000000000000" =
        .ok ch ∧ ch.length = 32 ∧
      ((∃ s num amt, AmountJSON.drops "1000000" = .drops s ∧
          parseDropsString s = .ok num ∧ UInt64.fromNat num = .ok amt ∧
          amt.length = 8 ∧
          ([0x43, 0x4C, 0x4D, 0x00] ++ zeros 32 ++ toBytesBE 8 1000000 : Bytes) =
            [0x43, 0x4C, 0x4D, 0x00] ++ ch ++ amt) ∨
       (∃ v c i amt, AmountJSON.drops "1000000" = .issued v c i ∧
          Amount.fromIssued v c i = .ok amt ∧ amt.length = 48 ∧
          ([0x43, 0x4C, 0x4D, 0x00] ++ zeros 32 ++ toBytesBE 8 1000000 : Bytes) =
            [0x43, 0x4C, 0x4D, 0x00] ++ ch ++ amt)) :=
  claim_C3_signing_claim_layout
    ⟨"0000000000000000000000000000000000000000000000000000000000000000",
      .drops "1000000"⟩
    ([0x43, 0x4C, 0x4D, 0x00] ++ zeros 32 ++ toBytesBE 8 1000000) rfl

/-- C4: on canonical byte encodings, decoding to JSON and re-encoding the
JSON is the identity, for `Issue` and for `XChainBridge`. -/
theorem claim_C4_bytes_json_bytes_roundtrip (b1 b2 : Bytes)
    (h1 : Issue.canonicalBytes b1) (h2 : XChainBridge.canonicalBytes b2) :
    issueDecodeEncode b1 = .ok b1 ∧ bridgeDecodeEncode b2 = .ok b2 :=
  ⟨issueDecodeEncode_canonical b1 h1, bridgeDecodeEncode_canonical b2 h2⟩

theorem claim_C4_bytes_json_bytes_roundtrip_witness :
    issueDecodeEncode (zeros 20) = .ok (zeros 20) ∧
    bridgeDecodeEncode
        ([0x14] ++ zeros 20 ++ zeros 20 ++ [0x14] ++ zeros 20 ++ zeros 20) =
      .ok ([0x14] ++ zeros 20 ++ zeros 20 ++ [0x14] ++ zeros 20 ++ zeros 20) :=
  claim_C4_bytes_json_bytes_roundtrip _ _ (Or.inl rfl)
    ⟨zeros 20, zeros 20, zeros 20, zeros 20, rfl, rfl, rfl,
      by decide, by decide, Or.inl rfl, Or.inl rfl⟩

theorem Issue.fromJson_length_cases {j : JVal} {bs : Bytes}
    (h : Issue.fromJson j = .ok bs) : bs.length = 20 ∨ bs.length = 40 := by
  rcases Issue.fromJson_ok_cases j bs h with ⟨-, hb⟩ | ⟨kvs, c, i, -, hb, hc, hi⟩
  · left
    subst hb
    simp [zeros]
  · right
    subst hb
    simp [hc, hi]

/-- The JSON `XChainBridge.toJSON` produces is always an object whose key
list is exactly `TYPE_ORDER`'s four names. -/
theorem XChainBridge.toJSON_ok_shape (bs : Bytes) (j : JVal)
    (h : XChainBridge.toJSON bs = .ok j) :
    ∃ kvs, j = .obj kvs ∧ kvs.map Prod.fst = XChainBridge.typeOrderNames := by
  rw [XChainBridge.toJSON] at h
  cases h1 : BinaryParser.skip ⟨bs⟩ 1 with
  | error e => rw [h1, except_bind_error] at h; cases h
  | ok p1 =>
      rw [h1, except_bind_ok] at h
      cases h2 : p1.read 20 with
      | error e => rw [h2, except_bind_error] at h; cases h
      | ok pr1 =>
          obtain ⟨d1, p2⟩ := pr1
          rw [h2, except_bind_ok] at h
          dsimp only at h
          cases h3 : IssuedCurrency.fromParser p2 with
          | error e => rw [h3, except_bind_error] at h; cases h
          | ok pr2 =>
              obtain ⟨i1, p3⟩ := pr2
              rw [h3, except_bind_ok] at h
              dsimp only at h
              cases h4 : IssuedCurrency.toJSON i1 with
              | error e => rw [h4, except_bind_error] at h; cases h
              | ok j1 =>
                  rw [h4, except_bind_ok] at h
                  cases h5 : p3.skip 1 with
                  | error e => rw [h5, except_bind_error] at h; cases h
                  | ok p4 =>
                      rw [h5, except_bind_ok] at h
                      cases h6 : p4.read 20 with
                      | error e => rw [h6, except_bind_error] at h; cases h
                      | ok pr3 =>
                          obtain ⟨d2, p5⟩ := pr3
                          rw [h6, except_bind_ok] at h
                          dsimp only at h
                          cases h7 : IssuedCurrency.fromParser p5 with
                          | error e => rw [h7, except_bind_error] at h; cases h
                          | ok pr4 =>
                              obtain ⟨i2, p6⟩ := pr4
                              rw [h7, except_bind_ok] at h
                              dsimp only at h
                              cases h8 : IssuedCurrency.toJSON i2 with
                              | error e => rw [h8, except_bind_error] at h; cases h
                              | ok j2 =>
                                  rw [h8, except_bind_ok] at h
                                  cases h
                                  exact ⟨_, rfl, rfl⟩

/-- C5: every serialized `XChainBridge` is, in order, a 0x14 byte, the
20-byte locking door, the locking issue (20 or 40 bytes), a 0x14 byte, the
20-byte issuing door and the issuing issue (20 or 40 bytes); and its JSON
form uses exactly the four keys `LockingChainDoor, LockingChainIssue,
IssuingChainDoor, IssuingChainIssue`. -/
theorem claim_C5_bridge_wire_and_json (j : JVal) (bs : Bytes)
    (h : XChainBridge.fromJson j = .ok bs) :
    (∃ d1 i1 d2 i2, bs = [0x14] ++ d1 ++ i1 ++ [0x14] ++ d2 ++ i2 ∧
      d1.length = 20 ∧ d2.length = 20 ∧
      (i1.length = 20 ∨ i1.length = 40) ∧ (i2.length = 20 ∨ i2.length = 40)) ∧
    (∀ j2, XChainBridge.toJSON bs = .ok j2 →
      ∃ kvs, j2 = .obj kvs ∧ kvs.map Prod.fst = XChainBridge.typeOrderNames) := by
  refine ⟨?_, fun j2 h2 => XChainBridge.toJSON_ok_shape bs j2 h2⟩
  cases j with
  | str s =>
      rw [XChainBridge.fromJson] at h
      · cases h
      · intro kvs hk
        cases hk
  | obj kvs =>
      rw [XChainBridge.fromJson] at h
      split at h
      · split at h
        · rename_i o1 o2 o3 o4 ld li igd igi hld hli higd higi
          cases ha1 : AccountID.fromJVal ld with
          | error e => rw [ha1, except_bind_error] at h; cases h
          | ok bd1 =>
              rw [ha1, except_bind_ok] at h
              cases hb1 : IssuedCurrency.fromJson li with
              | error e => rw [hb1, except_bind_error] at h; cases h
              | ok bi1 =>
                  rw [hb1, except_bind_ok] at h
                  cases ha2 : AccountID.fromJVal igd with
                  | error e => rw [ha2, except_bind_error] at h; cases h
                  | ok bd2 =>
                      rw [ha2, except_bind_ok] at h
                      cases hb2 : IssuedCurrency.fromJson igi with
                      | error e => rw [hb2, except_bind_error] at h; cases h
                      | ok bi2 =>
                          rw [hb2, except_bind_ok] at h
                          cases h
                          exact ⟨bd1, bi1, bd2, bi2, rfl,
                            AccountID.fromJVal_length ha1,
                            AccountID.fromJVal_length ha2,
                            Issue.fromJson_length_cases hb1,
                            Issue.fromJson_length_cases hb2⟩
        · cases h
      · cases h

theorem claim_C5_bridge_wire_and_json_witness :
    (∃ d1 i1 d2 i2,
      ([0x14] ++ zeros 20 ++ zeros 20 ++ [0x14] ++ zeros 20 ++ zeros 20 : Bytes) =
        [0x14] ++ d1 ++ i1 ++ [0x14] ++ d2 ++ i2 ∧
      d1.length = 20 ∧ d2.length = 20 ∧
      (i1.length = 20 ∨ i1.length = 40) ∧ (i2.length = 20 ∨ i2.length = 40)) ∧
    (∀ j2, XChainBridge.toJSON
        ([0x14] ++ zeros 20 ++ zeros 20 ++ [0x14] ++ zeros 20 ++ zeros 20) =
          .ok j2 →
      ∃ kvs, j2 = .obj kvs ∧ kvs.map Prod.fst = XChainBridge.typeOrderNames) :=
  claim_C5_bridge_wire_and_json
    (.obj [("LockingChainDoor",
        .str "r0000000000000000000000000000000000000000"),
      ("LockingChainIssue", .str "XRP"),
      ("IssuingChainDoor",
        .str "r0000000000000000000000000000000000000000"),
      ("IssuingChainIssue", .str "XRP")])
    ([0x14] ++ zeros 20 ++ zeros 20 ++ [0x14] ++ zeros 20 ++ zeros 20) rfl

/-- C6 counterexample: `Issue.from` accepts `{currency: "XRP", issuer: r...}`
and produces a 40-byte serialized form (so the value does not take the
20-byte XRP form), yet `Issue.toJSON` on those 40 bytes returns the bare
string `"XRP"`, not an object `{currency, issuer}` — against the claim's
"object otherwise". -/
theorem claim_C6_issue_sizes_counterexample :
    Issue.fromJson (.obj [("currency", .str "XRP"),
        ("issuer", .str "r0000000000000000000000000000000000000000")]) =
      .ok (zeros 20 ++ zeros 20) ∧
    (zeros 20 ++ zeros 20 : Bytes).length = 40 ∧
    Issue.toJSON (zeros 20 ++ zeros 20) = .ok (.str "XRP") :=
  ⟨rfl, rfl, rfl⟩

/-- C6 amended: for every accepted input, the string `"XRP"` serializes to 20
bytes and every accepted object to 40 bytes; `Issue.toJSON` returns the
string `"XRP"` whenever the leading currency component decodes to XRP — which
includes the 40-byte values built from `{currency: "XRP", issuer}` — and an
object `{currency, issuer}` otherwise. -/
theorem claim_C6_issue_sizes_amended (j : JVal) (bs : Bytes)
    (h : Issue.fromJson j = .ok bs) :
    (j = .str "XRP" → bs.length = 20) ∧
    (∀ kvs, j = .obj kvs → bs.length = 40) ∧
    (Currency.toJSON (bs.take 20) = "XRP" → Issue.toJSON bs = .ok (.str "XRP")) ∧
    (Currency.toJSON (bs.take 20) ≠ "XRP" →
      ∃ cs ds, Issue.toJSON bs = .ok (.obj [("currency", .str cs),
        ("issuer", .str ds)])) := by
  rcases Issue.fromJson_ok_cases j bs h with ⟨hj, hb⟩ | ⟨kvs, c, i, hj, hb, hc, hi⟩
  · subst hb
    subst hj
    have htake : (zeros 20 : Bytes).take 20 = zeros 20 := by
      simp [zeros, List.take_replicate]
    refine ⟨fun _ => by simp [zeros], ?_, ?_, ?_⟩
    · intro kvs hk
      cases hk
    · intro _
      exact Issue.toJSON_xrp (zeros 20) (by simp [zeros]) Currency.toJSON_zeros
    · intro hne
      rw [htake] at hne
      exact absurd Currency.toJSON_zeros hne
  · subst hb
    subst hj
    have htake : (c ++ i).take 20 = c := by
      rw [← hc, List.take_left]
    refine ⟨?_, ?_, ?_, ?_⟩
    · intro hk
      cases hk
    · intro kvs2 hk
      simp [hc, hi]
    · intro hxrp
      rw [htake] at hxrp
      rw [Issue.toJSON, BinaryParser.read_append_of_length c i hc, except_bind_ok]
      dsimp only
      rw [if_pos hxrp]
    · intro hne
      rw [htake] at hne
      exact ⟨Currency.toJSON c, encodeAccountID i, Issue.toJSON_pair c i hc hi hne⟩

theorem claim_C6_issue_sizes_amended_witness :
    (JVal.str "XRP" = .str "XRP" → (zeros 20 : Bytes).length = 20) ∧
    (∀ kvs, JVal.str "XRP" = .obj kvs → (zeros 20 : Bytes).length = 40) ∧
    (Currency.toJSON ((zeros 20 : Bytes).take 20) = "XRP" →
      Issue.toJSON (zeros 20) = .ok (.str "XRP")) ∧
    (Currency.toJSON ((zeros 20 : Bytes).take 20) ≠ "XRP" →
      ∃ cs ds, Issue.toJSON (zeros 20) = .ok (.obj [("currency", .str cs),
        ("issuer", .str ds)])) :=
  claim_C6_issue_sizes_amended (.str "XRP") (zeros 20) rfl

theorem Issue.toJSON_wfSlice (i : Bytes) (h : wfIssueSlice i) :
    ∃ j, Issue.toJSON i = .ok j := by
  rcases h with ⟨hl, hx⟩ | ⟨c, a, hbs, hc, ha, hx⟩
  · exact ⟨.str "XRP", Issue.toJSON_xrp i hl hx⟩
  · subst hbs
    exact ⟨_, Issue.toJSON_pair c a hc ha hx⟩

/-- C9: `XChainBridge.fromParser` and `XChainBridge.toJSON` skip the byte
before each door account without checking it equals 0x14: on a buffer
well-formed except for arbitrary marker bytes `m1`, `m2`, parsing succeeds,
the parsed value's bytes carry literal 0x14 at the marker positions,
`toJSON` also succeeds, and — whenever `m1 ≠ 0x14` — serialize-after-parse
differs from the input. -/
theorem claim_C9_markers_skipped_unchecked (m1 m2 : Nat) (d1 i1 d2 i2 : Bytes)
    (hd1 : d1.length = 20) (hd2 : d2.length = 20)
    (h1 : wfIssueSlice i1) (h2 : wfIssueSlice i2) :
    XChainBridge.fromParser ⟨[m1] ++ d1 ++ i1 ++ [m2] ++ d2 ++ i2⟩ =
      .ok ([0x14] ++ d1 ++ i1 ++ [0x14] ++ d2 ++ i2, ⟨[]⟩) ∧
    (∃ jj, XChainBridge.toJSON ([m1] ++ d1 ++ i1 ++ [m2] ++ d2 ++ i2) = .ok jj) ∧
    (m1 ≠ 0x14 →
      ([0x14] ++ d1 ++ i1 ++ [0x14] ++ d2 ++ i2 : Bytes) ≠
        [m1] ++ d1 ++ i1 ++ [m2] ++ d2 ++ i2) := by
  refine ⟨?_, ?_, ?_⟩
  · have h := XChainBridge.fromParser_parts m1 m2 d1 i1 d2 i2 [] hd1 hd2 h1 h2
    rwa [List.append_nil] at h
  · obtain ⟨j1, hj1⟩ := Issue.toJSON_wfSlice i1 h1
    obtain ⟨j2, hj2⟩ := Issue.toJSON_wfSlice i2 h2
    exact ⟨_, XChainBridge.toJSON_parts m1 m2 d1 i1 d2 i2 j1 j2 hd1 hd2 h1 h2 hj1 hj2⟩
  · intro hm heq
    simp only [List.append_assoc, List.singleton_append, List.cons_append,
      List.nil_append] at heq
    injection heq with hh ht
    exact hm hh.symm

theorem claim_C9_markers_skipped_unchecked_witness :
    XChainBridge.fromParser ⟨[0] ++ zeros 20 ++ zeros 20 ++ [255] ++ zeros 20 ++ zeros 20⟩ =
      .ok ([0x14] ++ zeros 20 ++ zeros 20 ++ [0x14] ++ zeros 20 ++ zeros 20, ⟨[]⟩) ∧
    (∃ jj, XChainBridge.toJSON
      ([0] ++ zeros 20 ++ zeros 20 ++ [255] ++ zeros 20 ++ zeros 20) = .ok jj) ∧
    (0 ≠ 0x14 →
      ([0x14] ++ zeros 20 ++ zeros 20 ++ [0x14] ++ zeros 20 ++ zeros 20 : Bytes) ≠
        [0] ++ zeros 20 ++ zeros 20 ++ [255] ++ zeros 20 ++ zeros 20) :=
  claim_C9_markers_skipped_unchecked 0 255 (zeros 20) (zeros 20) (zeros 20)
    (zeros 20) rfl rfl (Or.inl ⟨rfl, Currency.toJSON_zeros⟩)
    (Or.inl ⟨rfl, Currency.toJSON_zeros⟩)

end XrplCodec
